import Mathlib

/-!
Verification of `task1.py`: an in-memory address book whose records hold a
name, a list of ten-digit phone numbers and an optional birthday, together
with the `get_upcoming_birthdays` scheduling computation and the CLI command
handlers wrapped by the `input_error` decorator.

Dates are modelled as proleptic-Gregorian triples `(year, month, day)` with
the same ordinal numbering as CPython's `datetime.date.toordinal`
(0001-01-01 has ordinal 1).  Comparisons between dates in the source are
component-wise; on valid dates that order coincides with the ordinal order
used here.  `date + timedelta(days = n)` is modelled by ordinal arithmetic,
with the `OverflowError` raised by CPython when the result leaves the range
`[1, 3652059]` (0001-01-01 .. 9999-12-31) made explicit.
-/

namespace Task1

/-- The exception kinds raised by the program, with the message carried by
the exception object. -/
inductive PyErr where
  | indexError (msg : String)
  | keyError (msg : String)
  | valueError (msg : String)
  | overflowError (msg : String)
deriving DecidableEq, Repr

deriving instance DecidableEq for Except

/-- Gregorian leap-year test, as `calendar.isleap` / `datetime`. -/
def isLeap (y : Nat) : Bool :=
  y % 4 == 0 && (y % 100 != 0 || y % 400 == 0)

/-- `1` in a leap year, `0` otherwise. -/
def leapN (y : Nat) : Nat :=
  if isLeap y then 1 else 0

/-- Number of days of month `m` of year `y` (0 for an out-of-range month). -/
def daysInMonth (y m : Nat) : Nat :=
  match m with
  | 1 => 31
  | 2 => 28 + leapN y
  | 3 => 31
  | 4 => 30
  | 5 => 31
  | 6 => 30
  | 7 => 31
  | 8 => 31
  | 9 => 30
  | 10 => 31
  | 11 => 30
  | 12 => 31
  | _ => 0

/-- Days of year `y` that precede the first day of month `m`. -/
def daysBeforeMonth (y m : Nat) : Nat :=
  match m with
  | 1 => 0
  | 2 => 31
  | 3 => 59 + leapN y
  | 4 => 90 + leapN y
  | 5 => 120 + leapN y
  | 6 => 151 + leapN y
  | 7 => 181 + leapN y
  | 8 => 212 + leapN y
  | 9 => 243 + leapN y
  | 10 => 273 + leapN y
  | 11 => 304 + leapN y
  | 12 => 334 + leapN y
  | _ => 0

/-- Days before January 1 of year `y` (rata die). -/
def daysBeforeYear (y : Nat) : Nat :=
  365 * (y - 1) + (y - 1) / 4 + (y - 1) / 400 - (y - 1) / 100

/-- A calendar date, as CPython's `datetime.date` triple. -/
structure Date where
  year : Nat
  month : Nat
  day : Nat
deriving DecidableEq, Repr

/-- `datetime.date.toordinal`: 0001-01-01 is day 1. -/
def Date.toOrdinal (d : Date) : Nat :=
  daysBeforeYear d.year + daysBeforeMonth d.year d.month + d.day

/-- `datetime.date.weekday`: Monday = 0 .. Sunday = 6. -/
def Date.weekday (d : Date) : Nat :=
  (d.toOrdinal + 6) % 7

/-- The dates representable by `datetime.date`
(`MINYEAR = 1`, `MAXYEAR = 9999`). -/
def Date.Valid (d : Date) : Prop :=
  1 ≤ d.year ∧ d.year ≤ 9999 ∧ 1 ≤ d.month ∧ d.month ≤ 12 ∧
    1 ≤ d.day ∧ d.day ≤ daysInMonth d.year d.month

instance (d : Date) : Decidable d.Valid := by
  unfold Date.Valid
  infer_instance

/-- The successor date: `d + timedelta(days = 1)` on valid dates. -/
def Date.nextDay (d : Date) : Date :=
  if d.day < daysInMonth d.year d.month then ⟨d.year, d.month, d.day + 1⟩
  else if d.month < 12 then ⟨d.year, d.month + 1, 1⟩
  else ⟨d.year + 1, 1, 1⟩

/-- `date.replace(year = y)`: rebuilds the date with the new year, re-running
the constructor checks (`ValueError` on a year out of `[1, 9999]`, and on a
day that does not exist in the target month/year, e.g. Feb 29 of a common
year). -/
def Date.replaceYear (d : Date) (y : Nat) : Except PyErr Date :=
  if y < 1 || 9999 < y then
    .error (.valueError ("year " ++ toString y ++ " is out of range"))
  else if daysInMonth y d.month < d.day then
    .error (.valueError "day is out of range for month")
  else
    .ok ⟨y, d.month, d.day⟩

/-- One entry of the list built by `get_upcoming_birthdays`: the contact name
and the greeting date (the source renders the date through
`strftime("%d.%m.%Y")`, which on the four-digit years produced here is an
injective encoding of the date, so the date itself is kept). -/
structure Entry where
  name : String
  greet : Date
deriving DecidableEq, Repr

/-- `Phone`: the validated field.  `value` is the cleaned digit string. -/
structure Phone where
  value : String
deriving DecidableEq, Repr

/-- Error message of `Phone.__init__`. -/
def phoneErrMsg : String := "Номер телефону має складатися рівно з 10 цифр."

/-- `Phone.__init__`: keep only the digit characters of the input, require
exactly ten of them, store the cleaned string. -/
def Phone.parse (raw : String) : Except PyErr Phone :=
  if (raw.data.filter Char.isDigit).length = 10 then
    .ok ⟨String.mk (raw.data.filter Char.isDigit)⟩
  else .error (.valueError phoneErrMsg)

/-- `Birthday`: normalized display string plus the decoded date. -/
structure Birthday where
  value : String
  date : Date
deriving DecidableEq, Repr

/-- Error message of `Birthday.__init__`. -/
def dateErrMsg : String := "Invalid date format. Use DD.MM.YYYY"

/-- Digit value of a character, for the strptime field matchers. -/
def digitVal (c : Char) : Nat := c.toNat - 48

/-- The `%d` field of `strptime`: the regex `3[01]|[12]\d|0[1-9]|[1-9]`
(a two-digit day 01..31, else a single nonzero digit). -/
def parseDayField : List Char → Option (Nat × List Char)
  | c1 :: c2 :: rest =>
    if c1.isDigit && c2.isDigit &&
        1 ≤ digitVal c1 * 10 + digitVal c2 && digitVal c1 * 10 + digitVal c2 ≤ 31 then
      some (digitVal c1 * 10 + digitVal c2, rest)
    else if c1.isDigit && 1 ≤ digitVal c1 then
      some (digitVal c1, c2 :: rest)
    else none
  | [c1] =>
    if c1.isDigit && 1 ≤ digitVal c1 then some (digitVal c1, []) else none
  | [] => none

/-- The `%m` field of `strptime`: the regex `1[0-2]|0[1-9]|[1-9]`
(a two-digit month 01..12, else a single nonzero digit). -/
def parseMonthField : List Char → Option (Nat × List Char)
  | c1 :: c2 :: rest =>
    if c1.isDigit && c2.isDigit &&
        1 ≤ digitVal c1 * 10 + digitVal c2 && digitVal c1 * 10 + digitVal c2 ≤ 12 then
      some (digitVal c1 * 10 + digitVal c2, rest)
    else if c1.isDigit && 1 ≤ digitVal c1 then
      some (digitVal c1, c2 :: rest)
    else none
  | [c1] =>
    if c1.isDigit && 1 ≤ digitVal c1 then some (digitVal c1, []) else none
  | [] => none

/-- The `%Y` field of `strptime`: exactly four digits. -/
def parseYearField : List Char → Option (Nat × List Char)
  | c1 :: c2 :: c3 :: c4 :: rest =>
    if c1.isDigit && c2.isDigit && c3.isDigit && c4.isDigit then
      some (((digitVal c1 * 10 + digitVal c2) * 10 + digitVal c3) * 10 + digitVal c4, rest)
    else none
  | _ => none

/-- `datetime.strptime(s, "%d.%m.%Y").date()`: match day, `.`, month, `.`,
four-digit year, end of input, then run the `date` constructor checks. -/
def strptimeDMY (s : String) : Option Date :=
  match parseDayField s.data with
  | some (d, '.' :: r1) =>
    match parseMonthField r1 with
    | some (m, '.' :: r2) =>
      match parseYearField r2 with
      | some (y, []) =>
        if (Date.mk y m d).Valid then some ⟨y, m, d⟩ else none
      | _ => none
    | _ => none
  | _ => none

/-- Left-pad the decimal representation of `n` with zeros to width `w`. -/
def padZero (w n : Nat) : String :=
  let s := toString n
  String.mk (List.replicate (w - s.length) '0') ++ s

/-- `strftime("%d.%m.%Y")` on a date: `%d` and `%m` zero-pad to two digits,
but glibc's `%Y` renders the year without padding, so a year below 1000
comes out with fewer than four digits (year 90 renders as "90"). -/
def formatDMY (d : Date) : String :=
  padZero 2 d.day ++ "." ++ padZero 2 d.month ++ "." ++ toString d.year

/-- `Birthday.__init__`: strict `DD.MM.YYYY` parse, then store the
re-normalized (zero-padded) string and the decoded date. -/
def Birthday.parse (raw : String) : Except PyErr Birthday :=
  match strptimeDMY raw with
  | none => .error (.valueError dateErrMsg)
  | some dt => .ok ⟨formatDMY dt, dt⟩

/-- One contact: name, phone list, optional birthday. -/
structure Record where
  name : String
  phones : List Phone
  birthday : Option Birthday
deriving DecidableEq, Repr

/-- `Record.__init__`. -/
def Record.new (name : String) : Record :=
  ⟨name, [], none⟩

/-- `Record.add_phone`: validate, silently skip an already-present normalized
value, otherwise append. -/
def Record.add_phone (r : Record) (phone : String) : Except PyErr Record :=
  match Phone.parse phone with
  | .error e => .error e
  | .ok p =>
    if r.phones.any (fun ph => ph.value == p.value) then .ok r
    else .ok { r with phones := r.phones ++ [p] }

/-- Replace the first phone whose value is `oldv` by `newP`
(`None` when absent), as the loop in `Record.edit_phone`. -/
def replaceFirstPhone (phones : List Phone) (oldv : String) (newP : Phone) :
    Option (List Phone) :=
  match phones with
  | [] => none
  | ph :: rest =>
    if ph.value = oldv then some (newP :: rest)
    else (replaceFirstPhone rest oldv newP).map (fun l => ph :: l)

/-- `Record.edit_phone`: validate both numbers, replace the first entry
matching the normalized old value, `ValueError` when absent. -/
def Record.edit_phone (r : Record) (old new : String) : Except PyErr Record :=
  match Phone.parse old with
  | .error e => .error e
  | .ok oldP =>
    match Phone.parse new with
    | .error e => .error e
    | .ok newP =>
      match replaceFirstPhone r.phones oldP.value newP with
      | some l => .ok { r with phones := l }
      | none => .error (.valueError "Старий номер не знайдено у контакті.")

/-- Error message of `Record.add_birthday` on a second assignment. -/
def bdayAlreadyMsg : String := "День народження вже задано для цього контакту."

/-- `Record.add_birthday`: refuse when a birthday is already present,
otherwise validate and set it. -/
def Record.add_birthday (r : Record) (s : String) : Except PyErr Record :=
  match r.birthday with
  | some _ => .error (.valueError bdayAlreadyMsg)
  | none =>
    match Birthday.parse s with
    | .error e => .error e
    | .ok b => .ok { r with birthday := some b }

/-- The address book's `data` dict, in insertion order; keys (names) are
unique for books built through `addRecord`. -/
abbrev Book := List Record

/-- `AddressBook.add_record`: insert by name key, overwriting in place when
the key is already present (dict update keeps the original position). -/
def addRecord (book : Book) (r : Record) : Book :=
  match book with
  | [] => [r]
  | x :: xs => if x.name = r.name then r :: xs else x :: addRecord xs r

/-- `AddressBook.find`: `data.get(name)`. -/
def findR (book : Book) (name : String) : Option Record :=
  match book with
  | [] => none
  | x :: xs => if x.name = name then some x else findR xs name

/-- The birthday occurrence used by `get_upcoming_birthdays`: the stored
date with the year replaced by `today`'s year, advanced to the next year when
that occurrence is strictly before `today`. -/
def occurrenceOf (today : Date) (b : Birthday) : Except PyErr Date :=
  match b.date.replaceYear today.year with
  | .error e => .error e
  | .ok d1 =>
    if d1.toOrdinal < today.toOrdinal then d1.replaceYear (today.year + 1)
    else .ok d1

/-- `AddressBook._shift_if_weekend`: Saturday → +2 days, Sunday → +1 day. -/
def AddressBook.shift_if_weekend (d : Date) : Date :=
  if d.weekday = 5 then d.nextDay.nextDay
  else if d.weekday = 6 then d.nextDay
  else d

/-- The loop body of `get_upcoming_birthdays` over the record list: skip
records without a birthday, compute the occurrence (propagating its
`ValueError`), keep the records whose occurrence lies in
`[today, end]` (ordinals), pairing the name with the weekend-shifted
greeting date. -/
def collectUpcoming (today : Date) (endOrd : Int) : List Record → Except PyErr (List Entry)
  | [] => .ok []
  | r :: rs =>
    match r.birthday with
    | none => collectUpcoming today endOrd rs
    | some b =>
      match occurrenceOf today b with
      | .error e => .error e
      | .ok occ =>
        match collectUpcoming today endOrd rs with
        | .error e => .error e
        | .ok rest =>
          if today.toOrdinal ≤ occ.toOrdinal ∧ (occ.toOrdinal : Int) ≤ endOrd then
            .ok (⟨r.name, AddressBook.shift_if_weekend occ⟩ :: rest)
          else .ok rest

/-- Sort key comparison: the source sorts by `strptime(entry["birthday"])`,
i.e. by the greeting date, modelled by its ordinal. -/
def entryLE (a b : Entry) : Bool :=
  a.greet.toOrdinal ≤ b.greet.toOrdinal

/-- The ordinal of `end_date = today + timedelta(days = days - 1)`. -/
def windowEnd (today : Date) (days : Int) : Int :=
  (today.toOrdinal : Int) + (days - 1)

/-- `AddressBook.get_upcoming_birthdays(days)` at a given `today`
(`date.today()` in the source).  `end_date = today + timedelta(days = days - 1)`
raises `OverflowError` when it leaves the representable date range; then each
record with a birthday contributes when its year-mapped occurrence lies in
`[today, end_date]`, and the entries are sorted by greeting date
(stable mergesort, as `list.sort`). -/
def get_upcoming_birthdays (recs : Book) (days : Int) (today : Date) :
    Except PyErr (List Entry) :=
  if windowEnd today days < 1 || 3652059 < windowEnd today days then
    .error (.overflowError "date value out of range")
  else
    match collectUpcoming today (windowEnd today days) recs with
    | .error e => .error e
    | .ok l => .ok (l.mergeSort entryLE)

/-- The message CPython puts on the `ValueError` raised when a starred
assignment `a, b, ..., *_ = args` receives fewer than `expected` items. -/
def unpackErrMsg (expected got : Nat) : String :=
  "not enough values to unpack (expected at least " ++ toString expected ++
    ", got " ++ toString got ++ ")"

/-- `str(e)` for `KeyError(m)`: the `repr` of the key. -/
def keyErrorStr (m : String) : String := "'" ++ m ++ "'"

/-- `str(e)` of an exception, as interpolated by the `input_error` branches. -/
def PyErr.str : PyErr → String
  | .indexError m => m
  | .keyError m => keyErrorStr m
  | .valueError m => m
  | .overflowError m => m

/-- The branch table of the `input_error` decorator: `IndexError` → the
missing-arguments message, `KeyError` → `str(e)` (or a fallback when empty),
`ValueError` → `str(e)`, anything else → a generic wrapper message. -/
def handleError : PyErr → String
  | .indexError _ => "Недостатньо аргументів для команди."
  | .keyError m => if keyErrorStr m = "" then "Не знайдено." else keyErrorStr m
  | .valueError m => m
  | .overflowError m => "Сталася помилка: " ++ m

/-- A raw command handler: arguments and book to either a result string or a
raised exception, together with the book as mutated up to that point. -/
def Handler := List String → Book → Except PyErr String × Book

/-- The `input_error` decorator: run the handler, turn any exception into its
display string.  The book state reached before the exception persists. -/
def wrap (h : Handler) (args : List String) (book : Book) : String × Book :=
  match h args book with
  | (.ok s, b) => (s, b)
  | (.error e, b) => (handleError e, b)

/-- `add_contact` before decoration: destructure `name, phone, *_`, create
the record when absent, then add the phone when the string is non-empty.
The record is inserted into the book before the phone is validated, so a
phone `ValueError` still leaves the new (phone-less) record behind. -/
def add_contact_h : Handler := fun args book =>
  match args with
  | name :: phone :: _ =>
    match findR book name with
    | some r =>
      if phone ≠ "" then
        match r.add_phone phone with
        | .ok r1 => (.ok "Contact updated.", addRecord book r1)
        | .error e => (.error e, book)
      else (.ok "Contact updated.", book)
    | none =>
      let r := Record.new name
      let book1 := addRecord book r
      if phone ≠ "" then
        match r.add_phone phone with
        | .ok r1 => (.ok "Contact added.", addRecord book1 r1)
        | .error e => (.error e, book1)
      else (.ok "Contact added.", book1)
  | _ => (.error (.valueError (unpackErrMsg 2 args.length)), book)

/-- Message of the `KeyError` raised on a missing contact. -/
def notFoundMsg : String := "Контакт не знайдено."

/-- `change_phone` before decoration: destructure `name, old, new, *_`,
`KeyError` on a missing contact, then `Record.edit_phone`. -/
def change_phone_h : Handler := fun args book =>
  match args with
  | name :: old :: new :: _ =>
    match findR book name with
    | none => (.error (.keyError notFoundMsg), book)
    | some r =>
      match r.edit_phone old new with
      | .ok r1 => (.ok "Phone changed.", addRecord book r1)
      | .error e => (.error e, book)
  | _ => (.error (.valueError (unpackErrMsg 3 args.length)), book)

/-- `show_phone` before decoration. -/
def show_phone_h : Handler := fun args book =>
  match args with
  | name :: _ =>
    match findR book name with
    | none => (.error (.keyError notFoundMsg), book)
    | some r =>
      if r.phones = [] then (.ok "У контакту немає телефонів.", book)
      else (.ok (String.intercalate ", " (r.phones.map Phone.value)), book)
  | _ => (.error (.valueError (unpackErrMsg 1 args.length)), book)

/-- `add_birthday` before decoration: destructure `name, bday_str, *_`; a
missing contact is created and added to the book, then
`Record.add_birthday` runs (its `ValueError` leaves the fresh record in the
book). -/
def add_birthday_h : Handler := fun args book =>
  match args with
  | name :: bstr :: _ =>
    match findR book name with
    | some r =>
      match r.add_birthday bstr with
      | .ok r1 => (.ok "Birthday added.", addRecord book r1)
      | .error e => (.error e, book)
    | none =>
      let r := Record.new name
      let book1 := addRecord book r
      match r.add_birthday bstr with
      | .ok r1 => (.ok "Birthday added.", addRecord book1 r1)
      | .error e => (.error e, book1)
  | _ => (.error (.valueError (unpackErrMsg 2 args.length)), book)

/-- `show_birthday` before decoration. -/
def show_birthday_h : Handler := fun args book =>
  match args with
  | name :: _ =>
    match findR book name with
    | none => (.error (.keyError notFoundMsg), book)
    | some r =>
      match r.birthday with
      | none => (.ok "Для цього контакту не задано дня народження.", book)
      | some b => (.ok b.value, book)
  | _ => (.error (.valueError (unpackErrMsg 1 args.length)), book)

/-- The decorated `add_contact`. -/
def add_contact : List String → Book → String × Book := wrap add_contact_h

/-- The decorated `change_phone`. -/
def change_phone : List String → Book → String × Book := wrap change_phone_h

/-- The decorated `show_phone`. -/
def show_phone : List String → Book → String × Book := wrap show_phone_h

/-- The decorated `add_birthday`. -/
def add_birthday : List String → Book → String × Book := wrap add_birthday_h

/-- The decorated `show_birthday`. -/
def show_birthday : List String → Book → String × Book := wrap show_birthday_h

/-! ## Calendar arithmetic lemmas -/

theorem leapN_le_one (y : Nat) : leapN y ≤ 1 := by
  unfold leapN
  split <;> omega

theorem daysBeforeYear_succ (y : Nat) (hy : 1 ≤ y) :
    daysBeforeYear (y + 1) = daysBeforeYear y + 365 + leapN y := by
  unfold daysBeforeYear leapN isLeap
  simp only [Nat.add_sub_cancel, beq_iff_eq, bne, Bool.and_eq_true, Bool.or_eq_true,
    Bool.not_eq_eq_eq_not, Bool.not_true, beq_eq_false_iff_ne, ne_eq, decide_eq_true_eq]
  have h4 : y % 4 = 0 ∨ y % 4 ≠ 0 := by omega
  have h100 : y % 100 = 0 ∨ y % 100 ≠ 0 := by omega
  have h400 : y % 400 = 0 ∨ y % 400 ≠ 0 := by omega
  rcases h4 with h4 | h4 <;> rcases h100 with h100 | h100 <;> rcases h400 with h400 | h400 <;>
    simp [h4, h100, h400] <;> omega

theorem daysBeforeMonth_succ (y m : Nat) (h1 : 1 ≤ m) (h2 : m ≤ 11) :
    daysBeforeMonth y (m + 1) = daysBeforeMonth y m + daysInMonth y m := by
  interval_cases m <;> simp [daysBeforeMonth, daysInMonth] <;> omega

theorem daysInMonth_pos (y m : Nat) (h1 : 1 ≤ m) (h2 : m ≤ 12) :
    1 ≤ daysInMonth y m := by
  interval_cases m <;> simp only [daysInMonth] <;> omega

theorem toOrdinal_nextDay (d : Date) (h : d.Valid) :
    d.nextDay.toOrdinal = d.toOrdinal + 1 := by
  obtain ⟨y, m, day⟩ := d
  obtain ⟨hy1, hy2, hm1, hm2, hd1, hd2⟩ := h
  simp only at hy1 hy2 hm1 hm2 hd1 hd2
  unfold Date.nextDay
  simp only
  split
  · simp only [Date.toOrdinal]
    omega
  · split
    · rename_i hlt hm
      have hday : day = daysInMonth y m := by omega
      simp only [Date.toOrdinal]
      rw [daysBeforeMonth_succ y m hm1 (by omega)]
      omega
    · rename_i hlt hm
      have hm12 : m = 12 := by omega
      subst hm12
      have hday : day = 31 := by
        simp [daysInMonth] at hd2 hlt
        omega
      subst hday
      simp only [Date.toOrdinal]
      rw [daysBeforeYear_succ y hy1]
      simp [daysBeforeMonth]
      omega

theorem nextDay_valid (d : Date) (h : d.Valid)
    (hmax : ¬(d.year = 9999 ∧ d.month = 12 ∧ d.day = 31)) : d.nextDay.Valid := by
  obtain ⟨y, m, day⟩ := d
  obtain ⟨hy1, hy2, hm1, hm2, hd1, hd2⟩ := h
  simp only at hy1 hy2 hm1 hm2 hd1 hd2 hmax
  unfold Date.nextDay
  simp only
  split
  · rename_i hlt
    unfold Date.Valid
    simp only
    exact ⟨hy1, hy2, hm1, hm2, by omega, by omega⟩
  · split
    · rename_i hlt hm
      unfold Date.Valid
      simp only
      refine ⟨hy1, hy2, by omega, by omega, le_refl 1, ?_⟩
      exact daysInMonth_pos y (m + 1) (by omega) (by omega)
    · rename_i hlt hm
      have hm12 : m = 12 := by omega
      subst hm12
      have hday : day = 31 := by
        simp [daysInMonth] at hd2 hlt
        omega
      have hy : y ≠ 9999 := fun hc => hmax ⟨hc, rfl, hday⟩
      unfold Date.Valid
      simp only
      refine ⟨by omega, by omega, le_refl 1, by omega, le_refl 1, ?_⟩
      simp [daysInMonth]

theorem ordinal_year_succ_bounds (y m d : Nat) (h1 : (Date.mk y m d).Valid) :
    (Date.mk y m d).toOrdinal + 365 ≤ (Date.mk (y + 1) m d).toOrdinal ∧
      (Date.mk (y + 1) m d).toOrdinal ≤ (Date.mk y m d).toOrdinal + 366 := by
  obtain ⟨hy1, hy2, hm1, hm2, hd1, hd2⟩ := h1
  simp only at hy1 hy2 hm1 hm2 hd1 hd2
  simp only [Date.toOrdinal]
  rw [daysBeforeYear_succ y hy1]
  have l1 := leapN_le_one y
  have l2 := leapN_le_one (y + 1)
  interval_cases m <;> simp [daysBeforeMonth] <;> omega

/-! ## Structural lemmas about the occurrence computation -/

theorem replaceYear_ok (d : Date) (y : Nat) (d1 : Date)
    (h : d.replaceYear y = .ok d1) :
    d1 = ⟨y, d.month, d.day⟩ ∧ 1 ≤ y ∧ y ≤ 9999 ∧
      d.day ≤ daysInMonth y d.month := by
  unfold Date.replaceYear at h
  split at h
  · exact absurd h (by simp)
  · split at h
    · exact absurd h (by simp)
    · rename_i h1 h2
      simp only [Bool.or_eq_true, decide_eq_true_eq, not_or] at h1
      simp only [decide_eq_true_eq, not_lt] at h2
      cases h
      exact ⟨rfl, by omega, by omega, h2⟩

theorem replaceYear_error (d : Date) (y : Nat)
    (h : y < 1 ∨ 9999 < y ∨ daysInMonth y d.month < d.day) :
    ∃ e, d.replaceYear y = .error e := by
  unfold Date.replaceYear
  split
  · exact ⟨_, rfl⟩
  · rename_i h1
    simp only [Bool.or_eq_true, decide_eq_true_eq, not_or] at h1
    split
    · exact ⟨_, rfl⟩
    · rename_i h2
      simp only [decide_eq_true_eq, not_lt] at h2
      omega

theorem occurrenceOf_cases (today : Date) (b : Birthday) (occ : Date)
    (h : occurrenceOf today b = .ok occ) :
    1 ≤ today.year ∧ b.date.day ≤ daysInMonth today.year b.date.month ∧
      ((occ = ⟨today.year, b.date.month, b.date.day⟩ ∧
          today.toOrdinal ≤ occ.toOrdinal ∧ today.year ≤ 9999) ∨
        (occ = ⟨today.year + 1, b.date.month, b.date.day⟩ ∧
          (Date.mk today.year b.date.month b.date.day).toOrdinal < today.toOrdinal ∧
          today.year + 1 ≤ 9999 ∧
          b.date.day ≤ daysInMonth (today.year + 1) b.date.month)) := by
  unfold occurrenceOf at h
  cases h1 : b.date.replaceYear today.year with
  | error e => rw [h1] at h; exact absurd h (by simp)
  | ok d1 =>
    rw [h1] at h
    obtain ⟨hd1, hy1, hy2, hdim⟩ := replaceYear_ok _ _ _ h1
    subst hd1
    simp only at h
    split at h
    · rename_i hlt
      obtain ⟨hd2, hz1, hz2, hdim2⟩ := replaceYear_ok _ _ _ h
      refine ⟨hy1, hdim, Or.inr ⟨hd2, hlt, hz2, ?_⟩⟩
      simpa using hdim2
    · rename_i hlt
      cases h
      exact ⟨hy1, hdim, Or.inl ⟨rfl, by omega, hy2⟩⟩

theorem occurrenceOf_valid (today : Date) (b : Birthday) (occ : Date)
    (hb : b.date.Valid) (h : occurrenceOf today b = .ok occ) : occ.Valid := by
  obtain ⟨_, _, hm1, hm2, hd1, _⟩ := hb
  obtain ⟨hy1, hdim, hc⟩ := occurrenceOf_cases today b occ h
  rcases hc with ⟨hocc, _, hy2⟩ | ⟨hocc, _, hy2, hdim2⟩ <;> subst hocc <;>
    unfold Date.Valid <;> simp only <;>
    exact ⟨by omega, by omega, hm1, hm2, hd1, by assumption⟩

/-! ## Structural lemmas about the record loop -/

theorem mem_collectUpcoming (today : Date) (endOrd : Int) (recs : List Record)
    (l : List Entry) (h : collectUpcoming today endOrd recs = .ok l) (e : Entry) :
    e ∈ l ↔ ∃ r b occ, r ∈ recs ∧ r.birthday = some b ∧
      occurrenceOf today b = .ok occ ∧
      today.toOrdinal ≤ occ.toOrdinal ∧ (occ.toOrdinal : Int) ≤ endOrd ∧
      e = ⟨r.name, AddressBook.shift_if_weekend occ⟩ := by
  induction recs generalizing l with
  | nil =>
    unfold collectUpcoming at h
    cases h
    simp
  | cons r rs ih =>
    unfold collectUpcoming at h
    cases hb : r.birthday with
    | none =>
      rw [hb] at h
      simp only at h
      rw [ih l h]
      constructor
      · rintro ⟨r', b, occ, hr', rest⟩
        exact ⟨r', b, occ, List.mem_cons_of_mem r hr', rest⟩
      · rintro ⟨r', b, occ, hr', hb', rest⟩
        rcases List.mem_cons.mp hr' with hr' | hr'
        · subst hr'
          rw [hb] at hb'
          exact absurd hb' (by simp)
        · exact ⟨r', b, occ, hr', hb', rest⟩
    | some b =>
      rw [hb] at h
      simp only at h
      cases hocc : occurrenceOf today b with
      | error e0 => rw [hocc] at h; simp only at h; exact absurd h (by simp)
      | ok occ =>
        rw [hocc] at h
        simp only at h
        cases hrest : collectUpcoming today endOrd rs with
        | error e0 => rw [hrest] at h; simp only at h; exact absurd h (by simp)
        | ok rest =>
          rw [hrest] at h
          simp only at h
          split at h
          · rename_i hwin
            cases h
            rw [List.mem_cons, ih rest hrest]
            constructor
            · rintro (he | ⟨r', b', occ', hr', hb', hocc', hw1, hw2, he⟩)
              · exact ⟨r, b, occ, List.mem_cons_self r rs, hb, hocc, hwin.1, hwin.2, he⟩
              · exact ⟨r', b', occ', List.mem_cons_of_mem r hr', hb', hocc', hw1, hw2, he⟩
            · rintro ⟨r', b', occ', hr', hb', hocc', hw1, hw2, he⟩
              rcases List.mem_cons.mp hr' with hr' | hr'
              · subst hr'
                rw [hb] at hb'
                cases hb'
                rw [hocc] at hocc'
                cases hocc'
                exact Or.inl he
              · exact Or.inr ⟨r', b', occ', hr', hb', hocc', hw1, hw2, he⟩
          · rename_i hwin
            cases h
            rw [ih l hrest]
            constructor
            · rintro ⟨r', b', occ', hr', hb', hocc', hw1, hw2, he⟩
              exact ⟨r', b', occ', List.mem_cons_of_mem r hr', hb', hocc', hw1, hw2, he⟩
            · rintro ⟨r', b', occ', hr', hb', hocc', hw1, hw2, he⟩
              rcases List.mem_cons.mp hr' with hr' | hr'
              · subst hr'
                rw [hb] at hb'
                cases hb'
                rw [hocc] at hocc'
                cases hocc'
                exact absurd ⟨hw1, hw2⟩ hwin
              · exact ⟨r', b', occ', hr', hb', hocc', hw1, hw2, he⟩

theorem collectUpcoming_error (today : Date) (endOrd : Int) (recs : List Record)
    (rec : Record) (b : Birthday) (hrec : rec ∈ recs) (hb : rec.birthday = some b)
    (herr : ∃ e0, occurrenceOf today b = .error e0) :
    ∃ e, collectUpcoming today endOrd recs = .error e := by
  induction recs with
  | nil => cases hrec
  | cons r rs ih =>
    rcases List.mem_cons.mp hrec with hr | hr
    · subst hr
      obtain ⟨e0, he0⟩ := herr
      refine ⟨e0, ?_⟩
      unfold collectUpcoming
      simp only [hb, he0]
    · unfold collectUpcoming
      cases hbr : r.birthday with
      | none => simp only [hbr]; exact ih hr
      | some b' =>
        cases hocc : occurrenceOf today b' with
        | error e0 => simp only [hbr, hocc]; exact ⟨e0, rfl⟩
        | ok occ =>
          obtain ⟨e1, he1⟩ := ih hr
          simp only [hbr, hocc, he1]
          exact ⟨e1, rfl⟩

theorem get_upcoming_ok (recs : Book) (days : Int) (today : Date)
    (l : List Entry) (h : get_upcoming_birthdays recs days today = .ok l) :
    ∃ l0, collectUpcoming today (windowEnd today days) recs = .ok l0 ∧
      l = l0.mergeSort entryLE ∧
      1 ≤ windowEnd today days ∧ windowEnd today days ≤ 3652059 := by
  unfold get_upcoming_birthdays at h
  split at h
  · exact absurd h (by simp)
  · rename_i hrange
    simp only [Bool.or_eq_true, decide_eq_true_eq, not_or, not_lt] at hrange
    cases hc : collectUpcoming today (windowEnd today days) recs with
    | error e => rw [hc] at h; simp only at h; exact absurd h (by simp)
    | ok l0 =>
      rw [hc] at h
      simp only at h
      cases h
      exact ⟨l0, rfl, rfl, hrange.1, hrange.2⟩


/-! ## Weekend shift -/

theorem weekday_nextDay (d : Date) (h : d.Valid) :
    d.nextDay.weekday = (d.weekday + 1) % 7 := by
  unfold Date.weekday
  rw [toOrdinal_nextDay d h]
  omega

theorem shift_if_weekend_saturday (d : Date) (h : d.Valid) (hw : d.weekday = 5) :
    (AddressBook.shift_if_weekend d).toOrdinal = d.toOrdinal + 2 ∧
      (AddressBook.shift_if_weekend d).weekday = 0 := by
  have hne : ¬(d.year = 9999 ∧ d.month = 12 ∧ d.day = 31) := by
    rintro ⟨h1, h2, h3⟩
    have hd : d = ⟨9999, 12, 31⟩ := by
      cases d
      simp_all
    rw [hd] at hw
    have : (Date.mk 9999 12 31).weekday = 4 := by decide
    omega
  have h1 : d.nextDay.Valid := nextDay_valid d h hne
  have h1w : d.nextDay.weekday = 6 := by
    rw [weekday_nextDay d h, hw]
  have hne1 : ¬(d.nextDay.year = 9999 ∧ d.nextDay.month = 12 ∧ d.nextDay.day = 31) := by
    rintro ⟨g1, g2, g3⟩
    have hd : d.nextDay = ⟨9999, 12, 31⟩ := by
      cases hd : d.nextDay
      simp_all
    rw [hd] at h1w
    have : (Date.mk 9999 12 31).weekday = 4 := by decide
    omega
  unfold AddressBook.shift_if_weekend
  rw [if_pos hw]
  constructor
  · rw [toOrdinal_nextDay d.nextDay h1, toOrdinal_nextDay d h]
  · unfold Date.weekday at hw ⊢
    rw [toOrdinal_nextDay d.nextDay h1, toOrdinal_nextDay d h]
    omega

theorem shift_if_weekend_sunday (d : Date) (h : d.Valid) (hw : d.weekday = 6) :
    (AddressBook.shift_if_weekend d).toOrdinal = d.toOrdinal + 1 ∧
      (AddressBook.shift_if_weekend d).weekday = 0 := by
  have hne : ¬(d.year = 9999 ∧ d.month = 12 ∧ d.day = 31) := by
    rintro ⟨h1, h2, h3⟩
    have hd : d = ⟨9999, 12, 31⟩ := by
      cases d
      simp_all
    rw [hd] at hw
    have : (Date.mk 9999 12 31).weekday = 4 := by decide
    omega
  unfold AddressBook.shift_if_weekend
  rw [if_neg (by omega), if_pos hw]
  constructor
  · rw [toOrdinal_nextDay d h]
  · unfold Date.weekday at hw ⊢
    rw [toOrdinal_nextDay d h]
    omega

theorem shift_if_weekend_weekday (d : Date) (hw : d.weekday < 5) :
    AddressBook.shift_if_weekend d = d := by
  unfold AddressBook.shift_if_weekend
  rw [if_neg (by omega), if_neg (by omega)]

/-! ## Parser facts -/

theorem strptimeDMY_valid (s : String) (dt : Date) (h : strptimeDMY s = some dt) :
    dt.Valid := by
  unfold strptimeDMY at h
  split at h
  · split at h
    · split at h
      · split at h
        · rename_i hvalid
          cases h
          exact hvalid
        · exact absurd h (by simp)
      · exact absurd h (by simp)
    · exact absurd h (by simp)
  · exact absurd h (by simp)

/-- C4: phone parsing succeeds exactly when the cleaned input has exactly 10
digits, stores the cleaned string, rejects everything else with the
invalid-phone message, and the canonical string re-parses to the same
value. -/
theorem c4_phone_parse_spec :
    (∀ raw : String, (∃ p, Phone.parse raw = .ok p) ↔
        (raw.data.filter Char.isDigit).length = 10) ∧
    (∀ raw : String, (raw.data.filter Char.isDigit).length ≠ 10 →
        Phone.parse raw = .error (.valueError phoneErrMsg)) ∧
    (∀ raw p, Phone.parse raw = .ok p →
        p.value = String.mk (raw.data.filter Char.isDigit) ∧
        Phone.parse p.value = .ok p) := by
  have hidem : ∀ l : List Char, (l.filter Char.isDigit).filter Char.isDigit =
      l.filter Char.isDigit := by
    intro l
    exact List.filter_eq_self.mpr (fun a ha => List.of_mem_filter ha)
  refine ⟨?_, ?_, ?_⟩
  · intro raw
    constructor
    · rintro ⟨p, hp⟩
      unfold Phone.parse at hp
      by_contra hlen
      rw [if_neg hlen] at hp
      exact absurd hp (by simp)
    · intro hlen
      refine ⟨⟨String.mk (raw.data.filter Char.isDigit)⟩, ?_⟩
      unfold Phone.parse
      rw [if_pos hlen]
  · intro raw hlen
    unfold Phone.parse
    rw [if_neg hlen]
  · intro raw p hp
    unfold Phone.parse at hp
    split at hp
    · rename_i hlen
      cases hp
      refine ⟨rfl, ?_⟩
      unfold Phone.parse
      simp only
      rw [hidem raw.data, if_pos hlen]
    · exact absurd hp (by simp)

/-- Witness for C4 at the input "050-123-4567". -/
theorem c4_witness :
    Phone.parse "050-123-4567" = .ok ⟨"0501234567"⟩ ∧
      (Phone.mk "0501234567").value = String.mk ("050-123-4567".data.filter Char.isDigit) ∧
      Phone.parse "0501234567" = .ok ⟨"0501234567"⟩ := by
  have h := c4_phone_parse_spec.2.2 "050-123-4567" ⟨"0501234567"⟩ (by decide)
  exact ⟨by decide, h.1, h.2⟩

/-! ## Decimal rendering length (for the strftime year field) -/

theorem toDigitsCore_length_ge (b fuel : Nat) :
    ∀ (n : Nat) (acc : List Char),
      acc.length ≤ (Nat.toDigitsCore b fuel n acc).length := by
  induction fuel with
  | zero => intro n acc; simp [Nat.toDigitsCore]
  | succ f ih =>
    intro n acc
    unfold Nat.toDigitsCore
    simp only
    split
    · simp
    · exact le_trans (Nat.le_succ _) (ih (n / b) (Nat.digitChar (n % b) :: acc))

theorem toDigitsCore_length_lower (e : Nat) :
    ∀ (fuel n : Nat) (acc : List Char), n < fuel → 10 ^ e ≤ n →
      e + 1 + acc.length ≤ (Nat.toDigitsCore 10 fuel n acc).length := by
  induction e with
  | zero =>
    intro fuel n acc hfuel hn
    cases fuel with
    | zero => omega
    | succ f =>
      unfold Nat.toDigitsCore
      simp only
      split
      · simp only [List.length_cons]
        omega
      · have := toDigitsCore_length_ge 10 f (n / 10) (Nat.digitChar (n % 10) :: acc)
        simp at this ⊢
        omega
  | succ e ih =>
    intro fuel n acc hfuel hn
    cases fuel with
    | zero => omega
    | succ f =>
      have h10 : 10 ≤ n := by
        calc (10 : Nat) = 10 ^ 1 := by norm_num
          _ ≤ 10 ^ (e + 1) := Nat.pow_le_pow_right (by norm_num) (by omega)
          _ ≤ n := hn
      have hdiv : 10 ^ e ≤ n / 10 := by
        rw [Nat.le_div_iff_mul_le (by norm_num)]
        calc 10 ^ e * 10 = 10 ^ (e + 1) := (pow_succ 10 e).symm
          _ ≤ n := hn
      have hne : ¬(n / 10 = 0) := by
        intro hc
        rw [hc] at hdiv
        have hpos : 0 < (10 : Nat) ^ e := pow_pos (by norm_num) e
        omega
      unfold Nat.toDigitsCore
      simp only
      rw [if_neg hne]
      have hlt : n / 10 < f := by
        have h1 : n / 10 < n := Nat.div_lt_self (by omega) (by norm_num)
        omega
      have := ih f (n / 10) (Nat.digitChar (n % 10) :: acc) hlt hdiv
      simp at this ⊢
      omega

theorem repr_length_eq_four (n : Nat) (h1 : 1000 ≤ n) (h2 : n ≤ 9999) :
    (Nat.repr n).length = 4 := by
  have hlow := toDigitsCore_length_lower 3 (n + 1) n [] (by omega)
    (by calc (10 : Nat) ^ 3 = 1000 := by norm_num
      _ ≤ n := h1)
  have hup := Nat.repr_length n 4 (by norm_num)
    (by calc n ≤ 9999 := h2
      _ < 10 ^ 4 := by norm_num)
  have hrepr : (Nat.repr n).length = (Nat.toDigitsCore 10 (n + 1) n []).length := rfl
  simp at hlow
  omega

theorem toString_year_padded (y : Nat) (h1 : 1000 ≤ y) (h2 : y ≤ 9999) :
    padZero 4 y = toString y := by
  have ht : toString y = Nat.repr y := rfl
  have hlen : (toString y).length = 4 := by rw [ht]; exact repr_length_eq_four y h1 h2
  unfold padZero
  simp only [hlen]
  simp

/-- C5 counterexample: the reachable input "05.01.0090" parses (the `%Y`
field takes any four digits and year 90 is a valid date), but the stored
display string is strftime's "05.01.90" — not the zero-padded `DD.MM.YYYY`
canonical form "05.01.0090" the claim asserts. -/
theorem c5_counterexample :
    Birthday.parse "05.01.0090" = .ok ⟨"05.01.90", ⟨90, 1, 5⟩⟩ ∧
    "05.01.90" ≠ "05.01.0090" := ⟨by decide, by decide⟩

/-- C5 (amended): birthday parsing accepts only real calendar dates (the
stored decoded date is valid), and on success stores the
`strftime("%d.%m.%Y")` rendering of the decoded date — day and month
zero-padded to two digits, the year rendered without padding, which is the
zero-padded `DD.MM.YYYY` canonical form whenever the year is at least 1000;
"29.02.2024" is accepted, "29.02.2023" is rejected with the
invalid-date-format error. -/
theorem c5_birthday_parse_spec :
    (∀ s b, Birthday.parse s = .ok b → b.date.Valid ∧ b.value = formatDMY b.date) ∧
    (∀ s b, Birthday.parse s = .ok b → 1000 ≤ b.date.year →
      b.value = padZero 2 b.date.day ++ "." ++ padZero 2 b.date.month ++ "." ++
        padZero 4 b.date.year) ∧
    Birthday.parse "29.02.2024" = .ok ⟨"29.02.2024", ⟨2024, 2, 29⟩⟩ ∧
    Birthday.parse "29.02.2023" = .error (.valueError dateErrMsg) := by
  have hmain : ∀ s b, Birthday.parse s = .ok b →
      b.date.Valid ∧ b.value = formatDMY b.date := by
    intro s b hb
    unfold Birthday.parse at hb
    cases hs : strptimeDMY s with
    | none => rw [hs] at hb; exact absurd hb (by simp)
    | some dt =>
      rw [hs] at hb
      simp only at hb
      cases hb
      exact ⟨strptimeDMY_valid s dt hs, rfl⟩
  refine ⟨hmain, ?_, by decide, by decide⟩
  intro s b hb hy
  obtain ⟨hv, hval⟩ := hmain s b hb
  obtain ⟨_, hy9, _, _, _, _⟩ := hv
  rw [hval]
  unfold formatDMY
  rw [toString_year_padded b.date.year hy hy9]

/-- Witness for C5 at the input "29.02.2024" (a four-digit year, where the
rendering coincides with the zero-padded canonical form). -/
theorem c5_witness :
    ((Date.mk 2024 2 29).Valid ∧ ("29.02.2024" : String) = formatDMY ⟨2024, 2, 29⟩) ∧
    ("29.02.2024" : String) =
      padZero 2 29 ++ "." ++ padZero 2 2 ++ "." ++ padZero 4 2024 := by
  constructor
  · exact c5_birthday_parse_spec.1 "29.02.2024" ⟨"29.02.2024", ⟨2024, 2, 29⟩⟩ (by decide)
  · exact c5_birthday_parse_spec.2.1 "29.02.2024" ⟨"29.02.2024", ⟨2024, 2, 29⟩⟩
      (by decide) (by decide)

/-- C6: adding a phone equal (after normalization) to one already stored is a
silent no-op: re-adding after a successful add returns the record
unchanged. -/
theorem c6_add_phone_idempotent (r : Record) (raw raw2 : String) (p p2 : Phone)
    (r1 : Record) (h1 : Phone.parse raw = .ok p) (h2 : Phone.parse raw2 = .ok p2)
    (hev : p2.value = p.value) (hadd : r.add_phone raw = .ok r1) :
    r1.add_phone raw2 = .ok r1 := by
  unfold Record.add_phone at hadd ⊢
  rw [h1] at hadd
  rw [h2]
  simp only at hadd ⊢
  split at hadd
  · rename_i hany
    cases hadd
    rw [if_pos (by simpa [hev] using hany)]
  · rename_i hany
    cases hadd
    rw [if_pos (by simp [hev])]

/-- Witness for C6: add "050-123-4567" to a fresh record, then re-add its
normalized form. -/
theorem c6_witness :
    (Record.mk "Ann" [⟨"0501234567"⟩] none).add_phone "0501234567" =
      .ok (Record.mk "Ann" [⟨"0501234567"⟩] none) :=
  c6_add_phone_idempotent (Record.new "Ann") "050-123-4567" "0501234567"
    ⟨"0501234567"⟩ ⟨"0501234567"⟩ (Record.mk "Ann" [⟨"0501234567"⟩] none)
    (by decide) (by decide) rfl (by decide)

/-! ## Book lemmas -/

theorem addRecord_not_found (book : Book) (r : Record)
    (h : findR book r.name = none) : addRecord book r = book ++ [r] := by
  induction book with
  | nil => rfl
  | cons x xs ih =>
    unfold findR at h
    unfold addRecord
    split
    · rename_i hx
      rw [if_pos hx] at h
      exact absurd h (by simp)
    · rename_i hx
      rw [if_neg hx] at h
      rw [ih h]
      simp

theorem addRecord_append_same (book : Book) (r r1 : Record)
    (h : findR book r.name = none) (heq : r1.name = r.name) :
    addRecord (book ++ [r]) r1 = book ++ [r1] := by
  induction book with
  | nil =>
    simp only [List.nil_append]
    unfold addRecord
    rw [if_pos heq.symm]
  | cons x xs ih =>
    unfold findR at h
    split at h
    · exact absurd h (by simp)
    · rename_i hx
      simp only [List.cons_append]
      unfold addRecord
      rw [if_neg (by rw [heq]; exact hx), ih h]

/-- C3 counterexample: on an empty book, `add-birthday` does not fail with the
contact-not-found message and does not leave the book unchanged — it creates
the contact, sets the birthday, and reports success. -/
theorem c3_counterexample :
    add_birthday ["Ann", "01.01.1990"] [] =
      ("Birthday added.", [⟨"Ann", [], some ⟨"01.01.1990", ⟨1990, 1, 1⟩⟩⟩]) ∧
    "Birthday added." ≠ handleError (.keyError notFoundMsg) ∧
    ([⟨"Ann", [], some ⟨"01.01.1990", ⟨1990, 1, 1⟩⟩⟩] : Book) ≠ [] := by
  exact ⟨by decide, by decide, by decide⟩

/-- C3 (amended): `add-birthday` auto-creates a missing contact (appending a
fresh record with the parsed birthday) and reports "Birthday added."; on an
existing contact without a birthday it delegates to `Record.add_birthday`
and reports the same. -/
theorem c3_add_birthday_autocreates (name bstr : String) (b : Birthday)
    (book : Book) (hparse : Birthday.parse bstr = .ok b) :
    (findR book name = none →
      add_birthday [name, bstr] book =
        ("Birthday added.", book ++ [⟨name, [], some b⟩])) ∧
    (∀ r, findR book name = some r → r.birthday = none →
      add_birthday [name, bstr] book =
        ("Birthday added.", addRecord book { r with birthday := some b })) := by
  constructor
  · intro hfind
    unfold add_birthday wrap add_birthday_h
    simp only [hfind]
    unfold Record.add_birthday Record.new
    simp only [hparse]
    have h1 : addRecord book (Record.new name) = book ++ [Record.new name] :=
      addRecord_not_found book (Record.new name) hfind
    unfold Record.new at h1
    rw [h1]
    rw [addRecord_append_same book ⟨name, [], none⟩ ⟨name, [], some b⟩ hfind rfl]
  · intro r hfind hbd
    unfold add_birthday wrap add_birthday_h
    simp only [hfind]
    unfold Record.add_birthday
    simp only [hbd, hparse]

/-- Witness for C3 at an empty book and, for the second branch, a book with a
birthday-less record. -/
theorem c3_witness :
    add_birthday ["Ann", "01.01.1990"] [] =
      ("Birthday added.", [] ++ [⟨"Ann", [], some ⟨"01.01.1990", ⟨1990, 1, 1⟩⟩⟩]) ∧
    add_birthday ["Bob", "01.01.1990"] [⟨"Bob", [], none⟩] =
      ("Birthday added.",
        addRecord [⟨"Bob", [], none⟩] ⟨"Bob", [], some ⟨"01.01.1990", ⟨1990, 1, 1⟩⟩⟩) := by
  constructor
  · exact (c3_add_birthday_autocreates "Ann" "01.01.1990"
      ⟨"01.01.1990", ⟨1990, 1, 1⟩⟩ [] (by decide)).1 rfl
  · exact (c3_add_birthday_autocreates "Bob" "01.01.1990"
      ⟨"01.01.1990", ⟨1990, 1, 1⟩⟩ [⟨"Bob", [], none⟩] (by decide)).2
      ⟨"Bob", [], none⟩ (by decide) rfl

/-- C7 counterexample: a destructuring failure is reported with CPython's
unpack `ValueError` text, not with the dedicated insufficient-arguments
message that the decorator reserves for `IndexError`. -/
theorem c7_counterexample :
    change_phone ["Bob"] [] =
      ("not enough values to unpack (expected at least 3, got 1)", []) ∧
    "not enough values to unpack (expected at least 3, got 1)" ≠
      "Недостатньо аргументів для команди." := by
  exact ⟨by decide, by decide⟩

/-- C7 (amended): the decorated handlers convert every raised error kind into
a returned display string (nothing escapes), but a handler given fewer
argument tokens than it destructures returns the unpack `ValueError` text,
since tuple unpacking raises `ValueError`, not the `IndexError` the
decorator maps to the too-few-arguments message. -/
theorem c7_handler_boundary :
    (∀ (h : Handler) (args : List String) (book : Book) (e : PyErr),
        (h args book).1 = .error e →
        wrap h args book = (handleError e, (h args book).2)) ∧
    (∀ args book, args.length < 3 →
        change_phone args book = (unpackErrMsg 3 args.length, book)) ∧
    (∀ args book, args.length < 2 →
        add_contact args book = (unpackErrMsg 2 args.length, book)) ∧
    (∀ args book, args.length < 2 →
        add_birthday args book = (unpackErrMsg 2 args.length, book)) ∧
    (∀ book, show_phone [] book = (unpackErrMsg 1 0, book)) ∧
    (∀ book, show_birthday [] book = (unpackErrMsg 1 0, book)) := by
  refine ⟨?_, ?_, ?_, ?_, ?_, ?_⟩
  · intro h args book e he
    unfold wrap
    cases hh : h args book with
    | mk fst snd =>
      rw [hh] at he
      simp only at he
      subst he
      rfl
  · intro args book hlen
    rcases args with _ | ⟨a, _ | ⟨b, _ | ⟨c, t⟩⟩⟩
    · unfold change_phone wrap change_phone_h
      simp [handleError]
    · unfold change_phone wrap change_phone_h
      simp [handleError]
    · unfold change_phone wrap change_phone_h
      simp [handleError]
    · simp at hlen
      omega
  · intro args book hlen
    rcases args with _ | ⟨a, _ | ⟨b, t⟩⟩
    · unfold add_contact wrap add_contact_h
      simp [handleError]
    · unfold add_contact wrap add_contact_h
      simp [handleError]
    · simp at hlen
      omega
  · intro args book hlen
    rcases args with _ | ⟨a, _ | ⟨b, t⟩⟩
    · unfold add_birthday wrap add_birthday_h
      simp [handleError]
    · unfold add_birthday wrap add_birthday_h
      simp [handleError]
    · simp at hlen
      omega
  · intro book
    unfold show_phone wrap show_phone_h
    simp [handleError]
  · intro book
    unfold show_birthday wrap show_birthday_h
    simp [handleError]

/-- Witness for C7: the conversion branch at a concrete failing call and the
short-argument case for `change` at one token. -/
theorem c7_witness :
    wrap change_phone_h ["Bob"] [] =
      (handleError (.valueError (unpackErrMsg 3 1)), (change_phone_h ["Bob"] []).2) ∧
    change_phone ["Bob"] [] = (unpackErrMsg 3 1, []) := by
  constructor
  · exact c7_handler_boundary.1 change_phone_h ["Bob"] []
      (.valueError (unpackErrMsg 3 1)) (by decide)
  · exact c7_handler_boundary.2.1 ["Bob"] [] (by decide)

/-! ## February 29 and the year mapping -/

theorem occurrenceOf_feb29_error (today : Date) (b : Birthday)
    (hm : b.date.month = 2) (hd : b.date.day = 29)
    (hleap : isLeap today.year = false ∨
      ((Date.mk today.year 2 29).toOrdinal < today.toOrdinal ∧
        isLeap (today.year + 1) = false)) :
    ∃ e0, occurrenceOf today b = .error e0 := by
  unfold occurrenceOf
  cases h1 : b.date.replaceYear today.year with
  | error e => exact ⟨e, rfl⟩
  | ok d1 =>
    obtain ⟨hd1, hy1, hy2, hdim⟩ := replaceYear_ok _ _ _ h1
    rw [hm, hd] at hdim
    have hl : isLeap today.year = true := by
      cases hil : isLeap today.year with
      | true => rfl
      | false => simp [daysInMonth, leapN, hil] at hdim
    rcases hleap with hleap | ⟨hlt, hnl⟩
    · rw [hl] at hleap
      cases hleap
    · have hde : d1 = ⟨today.year, 2, 29⟩ := by rw [hd1, hm, hd]
      subst hde
      simp only
      rw [if_pos hlt]
      exact replaceYear_error _ _ (Or.inr (Or.inr (by simp [daysInMonth, leapN, hnl])))

/-- C9: a stored February 29 birthday mapped onto a non-leap year (today's
year, or the next one after the rollover step) makes
`get_upcoming_birthdays` raise instead of returning a list. -/
theorem c9_feb29_raises (recs : Book) (days : Int) (today : Date)
    (rec : Record) (b : Birthday) (hrec : rec ∈ recs) (hb : rec.birthday = some b)
    (hm : b.date.month = 2) (hd : b.date.day = 29)
    (hleap : isLeap today.year = false ∨
      ((Date.mk today.year 2 29).toOrdinal < today.toOrdinal ∧
        isLeap (today.year + 1) = false)) :
    ∃ e, get_upcoming_birthdays recs days today = .error e := by
  have herr := occurrenceOf_feb29_error today b hm hd hleap
  obtain ⟨e1, he1⟩ :=
    collectUpcoming_error today (windowEnd today days) recs rec b hrec hb herr
  unfold get_upcoming_birthdays
  split
  · exact ⟨_, rfl⟩
  · rw [he1]
    exact ⟨e1, rfl⟩

/-- Witness for C9: one record with birthday 29.02.2020 and today 01.05.2023
(2023 is not a leap year). -/
theorem c9_witness :
    ∃ e, get_upcoming_birthdays
      [⟨"Ann", [], some ⟨"29.02.2020", ⟨2020, 2, 29⟩⟩⟩] 7 ⟨2023, 5, 1⟩ = .error e :=
  c9_feb29_raises [⟨"Ann", [], some ⟨"29.02.2020", ⟨2020, 2, 29⟩⟩⟩] 7 ⟨2023, 5, 1⟩
    ⟨"Ann", [], some ⟨"29.02.2020", ⟨2020, 2, 29⟩⟩⟩ ⟨"29.02.2020", ⟨2020, 2, 29⟩⟩
    (by decide) rfl rfl rfl (Or.inl (by decide))

/-! ## Non-positive windows -/

/-- C10 counterexample: with `days` negative enough, the window-end
computation overflows the date range and the call raises rather than
returning the empty list (the empty book trivially has no February 29
birthday). -/
theorem c10_counterexample :
    get_upcoming_birthdays [] (-10000000) ⟨2025, 1, 1⟩ =
      .error (.overflowError "date value out of range") ∧
    get_upcoming_birthdays [] (-10000000) ⟨2025, 1, 1⟩ ≠ .ok [] := by
  exact ⟨by decide, by decide⟩

/-- C10 (amended): for `days ≤ 0`, whenever `get_upcoming_birthdays` does
return a list (no occurrence error and no window-end overflow), that list is
empty: every occurrence is at or after today, while the window ends strictly
before today. -/
theorem c10_nonpositive_window_empty (recs : Book) (days : Int) (today : Date)
    (l : List Entry) (hdays : days ≤ 0)
    (h : get_upcoming_birthdays recs days today = .ok l) : l = [] := by
  obtain ⟨l0, hc, hl, h1, h2⟩ := get_upcoming_ok recs days today l h
  have hnil : l0 = [] := by
    cases l0 with
    | nil => rfl
    | cons e es =>
      have hmem : e ∈ e :: es := List.mem_cons_self e es
      rw [mem_collectUpcoming today _ recs _ hc e] at hmem
      obtain ⟨r, b, occ, _, _, _, hw1, hw2, _⟩ := hmem
      unfold windowEnd at hw2
      omega
  subst hnil
  simpa using hl

unseal List.merge List.mergeSort in
/-- Witness for C10: a book whose single occurrence (05.08 mapped to 2025)
is discarded because the window `days = -1` ends before today. -/
theorem c10_witness :
    ([] : List Entry) = [] :=
  c10_nonpositive_window_empty [⟨"Ann", [], some ⟨"05.08.1990", ⟨1990, 8, 5⟩⟩⟩]
    (-1) ⟨2025, 6, 1⟩ [] (by decide) (by decide)

/-! ## Sortedness of the result -/

/-- C8: the returned sequence is sorted ascending by greeting date: every
adjacent pair is ordered by the greeting date's ordinal. -/
theorem c8_sorted_by_greeting (recs : Book) (days : Int) (today : Date)
    (l : List Entry) (h : get_upcoming_birthdays recs days today = .ok l) :
    l.Chain' (fun a b => a.greet.toOrdinal ≤ b.greet.toOrdinal) := by
  obtain ⟨l0, hc, hl, _, _⟩ := get_upcoming_ok recs days today l h
  subst hl
  have hp : (l0.mergeSort entryLE).Pairwise (fun a b => entryLE a b) :=
    List.sorted_mergeSort
      (by intro a b c hab hbc; simp only [entryLE, decide_eq_true_eq] at *; omega)
      (by intro a b; simp only [entryLE, Bool.or_eq_true, decide_eq_true_eq]; omega)
      l0
  exact (List.Pairwise.chain' hp).imp
    (fun a b hab => by simpa [entryLE] using hab)

unseal List.merge List.mergeSort in
/-- Witness for C8: two records whose iteration order is not the greeting
order; the returned list is sorted. -/
theorem c8_witness :
    List.Chain' (fun a b : Entry => a.greet.toOrdinal ≤ b.greet.toOrdinal)
      [⟨"Carl", ⟨2025, 1, 2⟩⟩, ⟨"Ann", ⟨2025, 1, 6⟩⟩] :=
  c8_sorted_by_greeting
    [⟨"Ann", [], some ⟨"05.01.1990", ⟨1990, 1, 5⟩⟩⟩,
     ⟨"Carl", [], some ⟨"02.01.1990", ⟨1990, 1, 2⟩⟩⟩]
    7 ⟨2025, 1, 1⟩ [⟨"Carl", ⟨2025, 1, 2⟩⟩, ⟨"Ann", ⟨2025, 1, 6⟩⟩] (by decide)

/-! ## Greeting dates -/

/-- C2: every entry reported by `get_upcoming_birthdays` carries the
weekend-shifted occurrence as its greeting date: +2 days from a Saturday
occurrence and +1 day from a Sunday occurrence (landing on Monday, weekday
0, in both cases), unchanged on weekdays.  The computation only reads the
stored birthday; the record (and its birthday) is not modified. -/
theorem c2_greeting_shift (recs : Book) (days : Int) (today : Date)
    (l : List Entry)
    (hvalid : ∀ r ∈ recs, ∀ b, r.birthday = some b → b.date.Valid)
    (h : get_upcoming_birthdays recs days today = .ok l) :
    ∀ e ∈ l, ∃ r b occ, r ∈ recs ∧ r.birthday = some b ∧
      occurrenceOf today b = .ok occ ∧ e.name = r.name ∧
      e.greet = AddressBook.shift_if_weekend occ ∧
      (occ.weekday = 5 → e.greet.toOrdinal = occ.toOrdinal + 2 ∧ e.greet.weekday = 0) ∧
      (occ.weekday = 6 → e.greet.toOrdinal = occ.toOrdinal + 1 ∧ e.greet.weekday = 0) ∧
      (occ.weekday < 5 → e.greet = occ) := by
  intro e he
  obtain ⟨l0, hc, hl, _, _⟩ := get_upcoming_ok recs days today l h
  subst hl
  rw [List.mem_mergeSort] at he
  rw [mem_collectUpcoming today _ recs l0 hc e] at he
  obtain ⟨r, b, occ, hr, hb, hocc, _, _, he⟩ := he
  subst he
  have hoccv : occ.Valid := occurrenceOf_valid today b occ (hvalid r hr b hb) hocc
  refine ⟨r, b, occ, hr, hb, hocc, rfl, rfl, ?_, ?_, ?_⟩
  · intro hw
    exact shift_if_weekend_saturday occ hoccv hw
  · intro hw
    exact shift_if_weekend_sunday occ hoccv hw
  · intro hw
    exact shift_if_weekend_weekday occ hw

unseal List.merge List.mergeSort in
/-- Witness for C2: Bob's birthday 04.01 occurs on Saturday 04.01.2025
(weekday 5); the reported greeting is Monday 06.01.2025. -/
theorem c2_witness :
    ∃ r b occ,
      r ∈ ([⟨"Bob", [], some ⟨"04.01.1990", ⟨1990, 1, 4⟩⟩⟩] : Book) ∧
      r.birthday = some b ∧
      occurrenceOf ⟨2025, 1, 1⟩ b = .ok occ ∧
      (Entry.mk "Bob" ⟨2025, 1, 6⟩).name = r.name ∧
      (Entry.mk "Bob" ⟨2025, 1, 6⟩).greet = AddressBook.shift_if_weekend occ ∧
      (occ.weekday = 5 →
        (Entry.mk "Bob" ⟨2025, 1, 6⟩).greet.toOrdinal = occ.toOrdinal + 2 ∧
        (Entry.mk "Bob" ⟨2025, 1, 6⟩).greet.weekday = 0) ∧
      (occ.weekday = 6 →
        (Entry.mk "Bob" ⟨2025, 1, 6⟩).greet.toOrdinal = occ.toOrdinal + 1 ∧
        (Entry.mk "Bob" ⟨2025, 1, 6⟩).greet.weekday = 0) ∧
      (occ.weekday < 5 → (Entry.mk "Bob" ⟨2025, 1, 6⟩).greet = occ) := by
  refine c2_greeting_shift [⟨"Bob", [], some ⟨"04.01.1990", ⟨1990, 1, 4⟩⟩⟩] 7
    ⟨2025, 1, 1⟩ [⟨"Bob", ⟨2025, 1, 6⟩⟩] ?_ (by decide) ⟨"Bob", ⟨2025, 1, 6⟩⟩ (by decide)
  intro r hr b hb
  rw [List.mem_singleton] at hr
  subst hr
  simp only at hb
  cases hb
  decide

/-! ## The inclusion window -/

/-- C1 (amended): a record is included exactly when it has a stored birthday
whose forward-mapped occurrence (year replaced by today's year, advanced one
year when earlier than today) lies in the inclusive window
`[today, today + (days - 1)]`; an occurrence equal to today always lies in
the window (for `days ≥ 1`); and a birthday that fell exactly `days` days
before today (its last-year occurrence) is excluded whenever `days ≤ 182` —
for larger windows its forward-mapped occurrence can itself fall inside the
window (see the counterexample at `days = 300`). -/
theorem c1_window_characterization (recs : Book) (days : Int) (today : Date)
    (l : List Entry) (hdays : 1 ≤ days)
    (h : get_upcoming_birthdays recs days today = .ok l) :
    (∀ e : Entry, e ∈ l ↔ ∃ r b occ, r ∈ recs ∧ r.birthday = some b ∧
        occurrenceOf today b = .ok occ ∧
        today.toOrdinal ≤ occ.toOrdinal ∧
        (occ.toOrdinal : Int) ≤ (today.toOrdinal : Int) + (days - 1) ∧
        e = ⟨r.name, AddressBook.shift_if_weekend occ⟩) ∧
    (∀ occ : Date, occ.toOrdinal = today.toOrdinal →
        today.toOrdinal ≤ occ.toOrdinal ∧
        (occ.toOrdinal : Int) ≤ (today.toOrdinal : Int) + (days - 1)) ∧
    (∀ (b : Birthday) (D occ : Date), D.Valid → D.year + 1 = today.year →
        b.date.month = D.month → b.date.day = D.day →
        (D.toOrdinal : Int) + days = (today.toOrdinal : Int) → days ≤ 182 →
        occurrenceOf today b = .ok occ →
        ¬(today.toOrdinal ≤ occ.toOrdinal ∧
          (occ.toOrdinal : Int) ≤ (today.toOrdinal : Int) + (days - 1))) := by
  obtain ⟨l0, hc, hl, _, _⟩ := get_upcoming_ok recs days today l h
  refine ⟨?_, ?_, ?_⟩
  · intro e
    rw [hl, List.mem_mergeSort, mem_collectUpcoming today _ recs l0 hc e]
    unfold windowEnd
    exact Iff.rfl
  · intro occ heq
    constructor
    · omega
    · rw [heq]
      omega
  · rintro b D occ hDv hDy hm hd hOrd h182 hocc hwin
    obtain ⟨hty1, hdim, hcase⟩ := occurrenceOf_cases today b occ hocc
    obtain ⟨hD1, hD2, hD3, hD4, hD5, hD6⟩ := hDv
    have hb1 := ordinal_year_succ_bounds D.year D.month D.day
      ⟨hD1, hD2, hD3, hD4, hD5, hD6⟩
    have hDeta : (Date.mk D.year D.month D.day) = D := rfl
    rw [hDeta] at hb1
    rcases hcase with ⟨hoeq, hge, hy9⟩ | ⟨hoeq, hlt, hy9, hdim2⟩
    · have hoeq2 : occ = ⟨D.year + 1, D.month, D.day⟩ := by
        rw [hoeq, hm, hd, ← hDy]
      rcases hwin with ⟨hw1, hw2⟩
      rw [hoeq2] at hw2
      have hg1 := hb1.1
      omega
    · have hF0v : (Date.mk today.year b.date.month b.date.day).Valid := by
        unfold Date.Valid
        simp only
        exact ⟨hty1, by omega, by rw [hm]; exact hD3, by rw [hm]; exact hD4,
          by rw [hd]; exact hD5, hdim⟩
      have hb2 := ordinal_year_succ_bounds today.year b.date.month b.date.day hF0v
      have hF0eq : (Date.mk today.year b.date.month b.date.day) =
          ⟨D.year + 1, D.month, D.day⟩ := by
        rw [hm, hd, ← hDy]
      rcases hwin with ⟨hw1, hw2⟩
      rw [hoeq] at hw2
      have hg1 := hb1.1
      have hg2 := hb2.1
      rw [hF0eq] at hg2
      omega

unseal List.merge List.mergeSort in
/-- C1 counterexample: with `days = 300` and today = 01.06.2025, the stored
birthday 05.08.1990 fell exactly 300 days before today (05.08.2024, last
year), yet the record IS included: its forward-mapped occurrence 05.08.2025
lies inside the 300-day window. -/
theorem c1_counterexample :
    (Date.mk 2024 8 5).year + 1 = (Date.mk 2025 6 1).year ∧
    ((Date.mk 2024 8 5).toOrdinal : Int) + 300 = ((Date.mk 2025 6 1).toOrdinal : Int) ∧
    (Date.mk 2024 8 5).month = (Date.mk 1990 8 5).month ∧
    (Date.mk 2024 8 5).day = (Date.mk 1990 8 5).day ∧
    get_upcoming_birthdays [⟨"Ann", [], some ⟨"05.08.1990", ⟨1990, 8, 5⟩⟩⟩]
      300 ⟨2025, 6, 1⟩ = .ok [⟨"Ann", ⟨2025, 8, 5⟩⟩] :=
  ⟨by decide, by decide, by decide, by decide, by decide⟩

unseal List.merge List.mergeSort in
/-- Witness for C1: today = 05.01.2025, days = 7, birthday 29.12.1990; its
last-year occurrence 29.12.2024 is exactly 7 days before today and its
forward-mapped occurrence 29.12.2025 is outside the window. -/
theorem c1_witness :
    ¬((Date.mk 2025 1 5).toOrdinal ≤ (Date.mk 2025 12 29).toOrdinal ∧
      ((Date.mk 2025 12 29).toOrdinal : Int) ≤
        ((Date.mk 2025 1 5).toOrdinal : Int) + (7 - 1)) :=
  (c1_window_characterization
    [⟨"Dee", [], some ⟨"29.12.1990", ⟨1990, 12, 29⟩⟩⟩] 7 ⟨2025, 1, 5⟩ []
    (by decide) (by decide)).2.2
    ⟨"29.12.1990", ⟨1990, 12, 29⟩⟩ ⟨2024, 12, 29⟩ ⟨2025, 12, 29⟩
    (by decide) rfl rfl rfl (by decide) (by decide) (by decide)
